import Mathlib

/-!
# Verification of the JVM bytecode backend (`src/src/lib.rs`)

A shallow embedding of the pure core of the `rustc_codegen_jvm` backend:
the type mapper (`rust_ty_to_jvm_descriptor`), the MIR-to-bytecode visitor
(`MirToBytecodeVisitor`), the stack analyzer (`calculate_max_stack_size`),
the constant-pool helpers (`add_utf8_constant`, `add_class_constant`,
`add_name_and_type_constant`) and the class-file assembler
(`generate_class_with_static_methods_bytecode`).

Conventions of the embedding:
* bytes are `Nat` (each produced byte is `< 256` by construction);
* Rust `u16`/`u32` counters are modelled as `Nat`; the truncating casts
  (`as u16`, `to_be_bytes`) are modelled by explicit `% 2 ^ 16` at the
  points where the source performs them;
* a Rust `panic!` (and an `.expect`) is modelled by `Option`, with `none`
  for the panicking execution;
* the `FxIndexMap<String, Vec<u8>>` of per-function bytecode together with
  the signature lookup `find_instance_by_name` (which, in `codegen_crate`,
  always succeeds because the map and the lookup iterate the same HIR
  items) is modelled by an in-order list of function records that carry
  their own signature.
-/

/-- Embeds `rustc_middle::ty::IntTy` (the variants used by the backend). -/
inductive IntTy where
  | i8 | i16 | i32 | i64 | isize | i128
  deriving DecidableEq, Repr

/-- Embeds `rustc_middle::ty::UintTy`. -/
inductive UintTy where
  | u8 | u16 | u32 | u64 | usize | u128
  deriving DecidableEq, Repr

/-- Embeds `rustc_middle::ty::FloatTy`. -/
inductive FloatTy where
  | f16 | f32 | f64 | f128
  deriving DecidableEq, Repr

/-- The fragment of `rustc_middle::ty::TyKind` that
`rust_ty_to_jvm_descriptor` distinguishes.  `Ref` drops the region and
mutability arguments (the source ignores them), `rawPtr` drops the
mutability.  Every `TyKind` variant that reaches the source's fallback arm
(`Adt`, `Array`, `Slice`, `FnDef`, `Closure`, ...) is represented by
`other k`. -/
inductive Ty where
  | bool
  | char
  | int (t : IntTy)
  | uint (t : UintTy)
  | float (t : FloatTy)
  | ref (inner : Ty)
  | rawPtr (pointee : Ty)
  | str
  | tuple (fields : List Ty)
  | never
  | other (k : Nat)
  deriving Repr

/-- Embeds `rust_ty_to_jvm_descriptor` (src/src/lib.rs, lines 257-331).  The
source is a single non-recursive `match`; the only panicking arm is a raw
pointer whose pointee is not `Str`, modelled by `none`. -/
def rust_ty_to_jvm_descriptor (rust_ty : Ty) : Option String :=
  match rust_ty with
  | .bool => some "Z"
  | .char => some "C"
  | .int it =>
    match it with
    | .i8 => some "B"
    | .i16 => some "S"
    | .i32 => some "I"
    | .i64 => some "J"
    | .isize => some "I"
    | .i128 => some "Ljava/math/BigInteger;"
  | .uint ut =>
    match ut with
    | .u8 => some "B"
    | .u16 => some "S"
    | .u32 => some "I"
    | .u64 => some "J"
    | .usize => some "I"
    | .u128 => some "Ljava/math/BigInteger;"
  | .float ft =>
    match ft with
    | .f32 => some "F"
    | .f64 => some "D"
    | .f16 => some "F"
    | .f128 => some "D"
  | .ref inner =>
    match inner with
    | .str => some "Ljava/lang/String;"
    | _ => some "Ljava/lang/Object;"
  | .rawPtr pointee =>
    match pointee with
    | .str => some "Ljava/lang/String;"
    | _ => none
  | .str => some "Ljava/lang/String;"
  | .tuple fields => if fields.isEmpty then some "V" else some "Ljava/lang/Object;"
  | .never => some "V"
  | .other _ => some "Ljava/lang/Object;"

/-! ## The MIR visitor (`MirToBytecodeVisitor`, src/src/lib.rs 333-466)

`visit_body` visits the basic blocks in declaration order; inside a block,
`super_basic_block_data` visits the statements in order and then the
terminator.  The visitor overrides only `visit_statement` and
`visit_terminator`, so the nested `super_*` visits of places and operands
append nothing. -/

/-- A MIR operand position.  The translator never reads the operands of a
recognized binary operation (it always emits fixed loads of slots 0 and
1), so only their presence matters. -/
abbrev Operand := Nat

/-- Embeds `rustc_middle::mir::BinOp`: the four variants the visitor recognizes,
plus a catch-all for the remaining ones (`Mul`, `Div`, `Rem`, `BitXor`,
...) which all reach the `Unsupported binary operation` arm. -/
inductive BinOp where
  | add | addWithOverflow | sub | subWithOverflow
  | otherOp (k : Nat)
  deriving Repr

/-- Embeds `Rvalue`: the visitor pattern-matches only `Rvalue::BinaryOp`; every
other rvalue shape is covered by `otherRvalue`. -/
inductive Rvalue where
  | binaryOp (op : BinOp) (lhs rhs : Operand)
  | otherRvalue (k : Nat)

/-- Embeds `StatementKind`: `Assign(place, rvalue)` — the place is ignored by the
visitor — plus a catch-all (`StorageLive`, `StorageDead`, ...). -/
inductive StatementKind where
  | assign (rv : Rvalue)
  | otherStmt (k : Nat)

/-- Embeds `TerminatorKind`: only `Return` is recognized; every other kind
(`Goto`, `Call`, `Assert`, ...) is covered by `otherTerm`. -/
inductive TerminatorKind where
  | ret
  | otherTerm (k : Nat)

/-- A MIR basic block: statements followed by one terminator. -/
structure BasicBlockData where
  statements : List StatementKind
  terminator : TerminatorKind

/-- The bytes `MirToBytecodeVisitor::visit_statement` appends
(src/src/lib.rs 376-423): `iload_0, iload_1, iadd` for `Add` /
`AddWithOverflow`, `iload_0, iload_1, isub` for `Sub` /
`SubWithOverflow`, nothing otherwise. -/
def visit_statement_bytes (statement : StatementKind) : List Nat :=
  match statement with
  | .assign (.binaryOp op _ _) =>
    match op with
    | .add | .addWithOverflow => [0x1a, 0x1b, 0x60]
    | .sub | .subWithOverflow => [0x1a, 0x1b, 0x64]
    | .otherOp _ => []
  | _ => []

/-- The bytes `MirToBytecodeVisitor::visit_terminator` appends
(src/src/lib.rs 425-465).  For a `Return` terminator the function's
declared return type is mapped through `rust_ty_to_jvm_descriptor`
(which can panic, hence `Option`) and the descriptor string is matched
exactly as in the source. -/
def visit_terminator_bytes (return_ty : Ty) (terminator : TerminatorKind) :
    Option (List Nat) :=
  match terminator with
  | .ret =>
    match rust_ty_to_jvm_descriptor return_ty with
    | none => none
    | some jvm_return_descriptor =>
      if jvm_return_descriptor = "V" then
        some [0xb1]
      else if jvm_return_descriptor = "I" ∨ jvm_return_descriptor = "F" ∨
          jvm_return_descriptor = "Z" ∨ jvm_return_descriptor = "B" ∨
          jvm_return_descriptor = "C" ∨ jvm_return_descriptor = "S" then
        some [0xac]
      else if jvm_return_descriptor = "Ljava/lang/String;" ∨
          jvm_return_descriptor = "Ljava/lang/Object;" then
        some [0xb0]
      else
        some [0xb1]
  | .otherTerm _ => some []

/-- One basic block: statement bytes in order, then the terminator's. -/
def visit_basic_block_bytes (return_ty : Ty) (data : BasicBlockData) :
    Option (List Nat) :=
  (visit_terminator_bytes return_ty data.terminator).map
    (fun t => (data.statements.map visit_statement_bytes).flatten ++ t)

/-- Embeds `visit_body`: all blocks in declaration order. -/
def visit_body_bytes (return_ty : Ty) (body : List BasicBlockData) :
    Option (List Nat) :=
  match body with
  | [] => some []
  | bb :: rest => do
    let h ← visit_basic_block_bytes return_ty bb
    let t ← visit_body_bytes return_ty rest
    some (h ++ t)

/-! ## The stack analyzer (`calculate_max_stack_size`, src/src/lib.rs 653-688) -/

/-- One arm of the `match opcode` inside the loop: the source mutates
`stack_depth` directly in the `iadd`/`isub` and `ireturn`/`areturn` arms
and then yields a `stack_effect` of `0`; we mirror that with a pair
(mutated depth, returned effect). -/
def stack_step (stack_depth : Int) (opcode : Nat) : Int × Int :=
  if (0x03 ≤ opcode ∧ opcode ≤ 0x08) ∨ (0x1a ≤ opcode ∧ opcode ≤ 0x23) then
    (stack_depth, 1)
  else if opcode = 0x60 ∨ opcode = 0x64 then
    (stack_depth - 1, 0)
  else if opcode = 0xac ∨ opcode = 0xb0 then
    (stack_depth - 1, 0)
  else
    (stack_depth, 0)

/-- The `while` loop of `calculate_max_stack_size`: add the effect, update
the running maximum, then clamp a negative depth to zero. -/
def stack_loop (instructions : List Nat) (stack_depth max_stack_depth : Int) : Int :=
  match instructions with
  | [] => max_stack_depth
  | opcode :: rest =>
    let p := stack_step stack_depth opcode
    let d := p.1 + p.2
    let m := if d > max_stack_depth then d else max_stack_depth
    let d := if d < 0 then 0 else d
    stack_loop rest d m

/-- Embeds `calculate_max_stack_size`: the final `max_stack_depth.max(0) as u16`. -/
def calculate_max_stack_size (instructions : List Nat) : Nat :=
  (max (stack_loop instructions 0 0) 0).toNat % 2 ^ 16

/-! ## Byte-level helpers of the assembler -/

/-- Embeds `u16::to_be_bytes` (also models the truncating `as u16` cast at a
serialization point). -/
def u16be (n : Nat) : List Nat :=
  [n / 256 % 256, n % 256]

/-- Embeds `u32::to_be_bytes`. -/
def u32be (n : Nat) : List Nat :=
  [n / 2 ^ 24 % 256, n / 2 ^ 16 % 256, n / 256 % 256, n % 256]

/-- UTF-8 encoding of one scalar value (`str::as_bytes` is the UTF-8
encoding of the string's characters). -/
def utf8EncodeChar (c : Char) : List Nat :=
  let n := c.toNat
  if n < 0x80 then [n]
  else if n < 0x800 then [0xC0 + n / 64, 0x80 + n % 64]
  else if n < 0x10000 then [0xE0 + n / 4096, 0x80 + n / 64 % 64, 0x80 + n % 64]
  else [0xF0 + n / 262144, 0x80 + n / 4096 % 64, 0x80 + n / 64 % 64, 0x80 + n % 64]

/-- Embeds `text.as_bytes()` as a list of byte values. -/
def utf8Bytes (text : String) : List Nat :=
  (text.data.map utf8EncodeChar).flatten

/-- Embeds `bs[i..i + repl.len()].copy_from_slice(repl)` — the placeholder
patching the assembler performs on its byte buffers. -/
def patch_bytes (bs : List Nat) (i : Nat) (repl : List Nat) : List Nat :=
  bs.take i ++ repl ++ bs.drop (i + repl.length)

/-! ## Constant pool helpers (src/src/lib.rs 174-218) -/

/-- The mutable pair `(constant_pool, constant_pool_count)` threaded
through the `add_*_constant` helpers.  The `u16` counter is modelled as a
`Nat`; the truncating cast happens where the count is serialized
(`u16be`). -/
structure PoolState where
  constant_pool : List Nat
  constant_pool_count : Nat

/-- The bytes one `CONSTANT_Utf8` entry contributes: tag `0x01`, big-endian
length (`as u16`), then the text bytes. -/
def utf8_entry_bytes (text : String) : List Nat :=
  0x01 :: (u16be (utf8Bytes text).length ++ utf8Bytes text)

/-- Embeds `add_utf8_constant` (src/src/lib.rs 174-188): returns the current
count and increments it, appending one entry. -/
def add_utf8_constant (st : PoolState) (text : String) : Nat × PoolState :=
  (st.constant_pool_count,
    ⟨st.constant_pool ++ utf8_entry_bytes text, st.constant_pool_count + 1⟩)

/-- The bytes of one `CONSTANT_Class` entry: tag `0x07`, name index. -/
def class_entry_bytes (name_index : Nat) : List Nat :=
  0x07 :: u16be name_index

/-- Embeds `add_class_constant` (src/src/lib.rs 190-202). -/
def add_class_constant (st : PoolState) (name_index : Nat) : Nat × PoolState :=
  (st.constant_pool_count,
    ⟨st.constant_pool ++ class_entry_bytes name_index, st.constant_pool_count + 1⟩)

/-- The bytes of one `CONSTANT_NameAndType` entry: tag `0x0c`, name index,
descriptor index. -/
def name_and_type_entry_bytes (name_index descriptor_index : Nat) : List Nat :=
  0x0c :: (u16be name_index ++ u16be descriptor_index)

/-- Embeds `add_name_and_type_constant` (src/src/lib.rs 204-218). -/
def add_name_and_type_constant (st : PoolState) (name_index descriptor_index : Nat) :
    Nat × PoolState :=
  (st.constant_pool_count,
    ⟨st.constant_pool ++ name_and_type_entry_bytes name_index descriptor_index,
      st.constant_pool_count + 1⟩)

/-! ## The class file assembler
(`generate_class_with_static_methods_bytecode`, src/src/lib.rs 468-636)

The source receives the `FxIndexMap<String, Vec<u8>>` of per-function
instruction bytes and looks each function's signature up again through
`find_instance_by_name` (which succeeds for every key, because
`codegen_crate` built the map from the same HIR item list).  We model the
map together with the recovered signatures as one in-order list of
`FnDecl` records. -/

/-- One compiled function as the assembler sees it: its name, its
signature, and the instruction bytes the visitor produced for it. -/
structure FnDecl where
  name : String
  inputs : List Ty
  output : Ty
  instrs : List Nat

/-- The `for arg_ty in fn_sig...inputs()` loop that `push_str`s the
argument descriptors in order (`none` when the mapper panics). -/
def arg_descriptors : List Ty → Option String
  | [] => some ""
  | t :: rest => do
    let d ← rust_ty_to_jvm_descriptor t
    let r ← arg_descriptors rest
    some (d ++ r)

/-- The method descriptor the assembler builds (src/src/lib.rs 513-540):
the fixed `([Ljava/lang/String;)V` for a zero-parameter function named
`main`, and `(` + argument descriptors + `)` + return descriptor
otherwise. -/
def method_descriptor (fn : FnDecl) : Option String :=
  if fn.name = "main" ∧ fn.inputs.isEmpty = true then
    some "([Ljava/lang/String;)V"
  else do
    let args ← arg_descriptors fn.inputs
    let ret ← rust_ty_to_jvm_descriptor fn.output
    some ("(" ++ args ++ ")" ++ ret)

/-- The pool indices the assembler keeps aside while building the pool:
`basic_class_index`, `object_class_index`, the per-method triple
`(method_name_index, method_descriptor_index, method_name_and_type_index)`
(the source's `method_constant_pool_indices` map, in insertion order), and
`code_attribute_name_index`. -/
structure PoolIndices where
  basic_class_index : Nat
  object_class_index : Nat
  method_indices : List (Nat × Nat × Nat)
  code_attribute_name_index : Nat

/-- The per-function constant-pool loop (src/src/lib.rs 507-557): name
Utf8, descriptor Utf8, NameAndType — in that order — for each function. -/
def add_method_constants :
    PoolState → List FnDecl → Option (PoolState × List (Nat × Nat × Nat))
  | st, [] => some (st, [])
  | st, fn :: rest => do
    let (method_name_index, st) := add_utf8_constant st fn.name
    let d ← method_descriptor fn
    let (method_descriptor_index, st) := add_utf8_constant st d
    let (method_name_and_type_index, st) :=
      add_name_and_type_constant st method_name_index method_descriptor_index
    let (st, tail) ← add_method_constants st rest
    some (st, (method_name_index, method_descriptor_index,
      method_name_and_type_index) :: tail)

/-- The constant-pool construction phase (src/src/lib.rs 479-561): crate
name Utf8, this-class Class, `java/lang/Object` Utf8, super-class Class,
the per-function entries, then the `Code` attribute name Utf8. -/
def build_constant_pool (crate_name : String) (fns : List FnDecl) :
    Option (PoolState × PoolIndices) := do
  let st : PoolState := ⟨[], 1⟩
  let (class_name_index, st) := add_utf8_constant st crate_name
  let (basic_class_index, st) := add_class_constant st class_name_index
  let (object_class_name_index, st) := add_utf8_constant st "java/lang/Object"
  let (object_class_index, st) := add_class_constant st object_class_name_index
  let (st, method_indices) ← add_method_constants st fns
  let (code_attribute_name_index, st) := add_utf8_constant st "Code"
  some (st, ⟨basic_class_index, object_class_index, method_indices,
    code_attribute_name_index⟩)

/-- Embeds `inputs().len() as u16 + 1` — the `max_locals` the assembler writes
(src/src/lib.rs 604-608): parameter count plus one slot. -/
def method_max_locals (param_count : Nat) : Nat :=
  (param_count % 2 ^ 16 + 1) % 2 ^ 16

/-- The `code_attribute_bytecode` buffer of one method (src/src/lib.rs
599-621): max_stack, max_locals, a code-length placeholder patched to the
instruction count, the instruction bytes, the empty exception table, and
zero nested attributes. -/
def code_attribute_bytes (fn : FnDecl) : List Nat :=
  let max_stack := calculate_max_stack_size fn.instrs
  let b := u16be max_stack
  let b := b ++ u16be (method_max_locals fn.inputs.length)
  let code_length_placeholder_index := b.length
  let b := b ++ [0x00, 0x00, 0x00, 0x00]
  let b := patch_bytes b code_length_placeholder_index (u32be fn.instrs.length)
  let b := b ++ fn.instrs
  let b := b ++ [0x00, 0x00]
  let b := b ++ [0x00, 0x00]
  b

/-- One method record of the method table (the loop body, src/src/lib.rs
577-630): access flags `ACC_PUBLIC | ACC_STATIC`, name and descriptor
indices, one attribute, the `Code` attribute name index, an
attribute-length placeholder patched to the code attribute's byte count,
then the code attribute itself. -/
def method_record_bytes (code_attribute_name_index : Nat)
    (method_name_index method_descriptor_index : Nat) (fn : FnDecl) : List Nat :=
  let b := [0x00, 0x09]
  let b := b ++ u16be method_name_index
  let b := b ++ u16be method_descriptor_index
  let b := b ++ [0x00, 0x01]
  let b := b ++ u16be code_attribute_name_index
  let b := b ++ [0x00, 0x00, 0x00, 0x00]
  let code_attr := code_attribute_bytes fn
  let b := patch_bytes b (b.length - 4) (u32be code_attr.length)
  b ++ code_attr

/-- Embeds `generate_class_with_static_methods_bytecode` (src/src/lib.rs
468-636).  The source's method loop fetches each function's indices from
`method_constant_pool_indices` by name; with the map's unique keys that is
the in-order zip used here. -/
def generate_class_with_static_methods_bytecode (crate_name : String)
    (fns : List FnDecl) : Option (List Nat) := do
  let bytecode : List Nat := [0xCA, 0xFE, 0xBA, 0xBE] ++ [0x00, 0x00, 0x00, 0x34]
  let (st, idxs) ← build_constant_pool crate_name fns
  let bytecode := bytecode ++ u16be st.constant_pool_count
  let bytecode := bytecode ++ st.constant_pool
  let bytecode := bytecode ++ [0x00, 0x21]
  let bytecode := bytecode ++ u16be idxs.basic_class_index
  let bytecode := bytecode ++ u16be idxs.object_class_index
  let bytecode := bytecode ++ [0x00, 0x00] ++ [0x00, 0x00]
  let bytecode := bytecode ++ u16be fns.length
  let bytecode := bytecode ++
    ((fns.zip idxs.method_indices).map (fun p =>
      method_record_bytes idxs.code_attribute_name_index p.2.1 p.2.2.1 p.1)).flatten
  let bytecode := bytecode ++ [0x00, 0x00]
  some bytecode

/-! ## Spec-side models (from the claims' wording, for comparison) -/

/-- Modelled from claim C1's wording: the return opcode chosen from the
declared return descriptor, with `areturn` for ANY reference descriptor
(any `L<name>;`, i.e. any descriptor beginning with `L`). -/
def claimed_return_opcode (descriptor : String) : Nat :=
  if descriptor = "V" then 0xb1
  else if descriptor = "I" ∨ descriptor = "F" ∨ descriptor = "Z" ∨
      descriptor = "B" ∨ descriptor = "C" ∨ descriptor = "S" then 0xac
  else if descriptor.data.head? = some 'L' then 0xb0
  else 0xb1

/-- The return opcode selection as the code actually performs it (the
amended form of C1): `areturn` only for the two exact descriptors
`Ljava/lang/String;` and `Ljava/lang/Object;`; every other descriptor —
including other `L<name>;` descriptors such as `Ljava/math/BigInteger;` —
falls to the default `return`. -/
def amended_return_opcode (descriptor : String) : Nat :=
  if descriptor = "V" then 0xb1
  else if descriptor = "I" ∨ descriptor = "F" ∨ descriptor = "Z" ∨
      descriptor = "B" ∨ descriptor = "C" ∨ descriptor = "S" then 0xac
  else if descriptor = "Ljava/lang/String;" ∨ descriptor = "Ljava/lang/Object;" then 0xb0
  else 0xb1

/-- Modelled from claim C3's wording: one step of the claimed stack-depth
simulation — loads/constants push 1, add/sub net −1, EVERY return
instruction (`ireturn` 0xac, `areturn` 0xb0, and the void `return` 0xb1
alike) pops 1, everything else is neutral; the truncated `Nat`
subtraction is the clamp at zero. -/
def claimed_stack_step (depth : Nat) (opcode : Nat) : Nat :=
  if (0x03 ≤ opcode ∧ opcode ≤ 0x08) ∨ (0x1a ≤ opcode ∧ opcode ≤ 0x23) then depth + 1
  else if opcode = 0x60 ∨ opcode = 0x64 then depth - 1
  else if opcode = 0xac ∨ opcode = 0xb0 ∨ opcode = 0xb1 then depth - 1
  else depth

/-- The claimed max-stack function: running maximum of the simulated
depth. -/
def claimed_max_stack (instructions : List Nat) : Nat :=
  (instructions.foldl
    (fun dm opcode =>
      let d := claimed_stack_step dm.1 opcode
      (d, if d > dm.2 then d else dm.2))
    ((0, 0) : Nat × Nat)).2

/-- One step of the amended simulation (the code's actual behaviour): as
claimed, but only `ireturn` (0xac) and `areturn` (0xb0) pop — the void
`return` (0xb1) is stack-neutral. -/
def amended_stack_step (depth : Nat) (opcode : Nat) : Nat :=
  if (0x03 ≤ opcode ∧ opcode ≤ 0x08) ∨ (0x1a ≤ opcode ∧ opcode ≤ 0x23) then depth + 1
  else if opcode = 0x60 ∨ opcode = 0x64 then depth - 1
  else if opcode = 0xac ∨ opcode = 0xb0 then depth - 1
  else depth

/-- The amended max-stack function: running maximum of the amended
simulated depth. -/
def amended_max_stack (instructions : List Nat) : Nat :=
  (instructions.foldl
    (fun dm opcode =>
      let d := amended_stack_step dm.1 opcode
      (d, if d > dm.2 then d else dm.2))
    ((0, 0) : Nat × Nat)).2

/-- A well-formed serialized constant-pool entry, as written by one of the
`add_*_constant` helpers: a Utf8, Class, or NameAndType record. -/
def is_pool_entry (e : List Nat) : Prop :=
  (∃ bs : List Nat, e = 0x01 :: (u16be bs.length ++ bs) ∧ bs.length < 2 ^ 16)
  ∨ (∃ ni, e = 0x07 :: u16be ni)
  ∨ (∃ ni di, e = 0x0c :: (u16be ni ++ u16be di))

/-- The pool-state invariant: the pool bytes decompose into a list of
well-formed entries and the running counter is one more than the number
of entries (it starts at 1). -/
def PoolWF (st : PoolState) : Prop :=
  ∃ entries : List (List Nat),
    st.constant_pool = entries.flatten
    ∧ (∀ e ∈ entries, is_pool_entry e)
    ∧ st.constant_pool_count = entries.length + 1

/-! ## Shared helper lemmas -/

/-- The source loop of `calculate_max_stack_size` computes, over
nonnegative `Nat`-valued starting depth and maximum, exactly the clamped
`Nat` simulation used by `amended_max_stack`. -/
theorem stack_loop_eq_amended (instructions : List Nat) :
    ∀ d m : Nat,
      stack_loop instructions d m =
        (((instructions.foldl
            (fun dm opcode =>
              let x := amended_stack_step dm.1 opcode
              (x, if x > dm.2 then x else dm.2)) ((d, m) : Nat × Nat)).2 : Nat) : Int) := by
  induction instructions with
  | nil => intro d m; rfl
  | cons opcode rest ih =>
    intro d m
    by_cases h1 : (0x03 ≤ opcode ∧ opcode ≤ 0x08) ∨ (0x1a ≤ opcode ∧ opcode ≤ 0x23)
    · simp only [stack_loop, stack_step, amended_stack_step, List.foldl_cons, h1, if_true]
      have hm : (if ((d : Int) + 1) > (m : Int) then ((d : Int) + 1) else (m : Int))
          = (((if d + 1 > m then d + 1 else m) : Nat) : Int) := by
        split_ifs <;> omega
      have hc : (if ((d : Int) + 1 < 0) then (0 : Int) else ((d : Int) + 1))
          = (((d + 1 : Nat) : Nat) : Int) := by
        split_ifs <;> omega
      rw [hm, hc]
      exact ih (d + 1) (if d + 1 > m then d + 1 else m)
    · by_cases h2 : opcode = 0x60 ∨ opcode = 0x64
      · simp only [stack_loop, stack_step, amended_stack_step, List.foldl_cons, h1, h2,
          if_true, if_false, add_zero]
        have hm : (if ((d : Int) - 1) > (m : Int) then ((d : Int) - 1) else (m : Int))
            = (((if d - 1 > m then d - 1 else m) : Nat) : Int) := by
          split_ifs <;> omega
        have hc : (if ((d : Int) - 1 < 0) then (0 : Int) else ((d : Int) - 1))
            = (((d - 1 : Nat) : Nat) : Int) := by
          split_ifs <;> omega
        rw [hm, hc]
        exact ih (d - 1) (if d - 1 > m then d - 1 else m)
      · by_cases h3 : opcode = 0xac ∨ opcode = 0xb0
        · simp only [stack_loop, stack_step, amended_stack_step, List.foldl_cons, h1, h2, h3,
            if_true, if_false, add_zero]
          have hm : (if ((d : Int) - 1) > (m : Int) then ((d : Int) - 1) else (m : Int))
              = (((if d - 1 > m then d - 1 else m) : Nat) : Int) := by
            split_ifs <;> omega
          have hc : (if ((d : Int) - 1 < 0) then (0 : Int) else ((d : Int) - 1))
              = (((d - 1 : Nat) : Nat) : Int) := by
            split_ifs <;> omega
          rw [hm, hc]
          exact ih (d - 1) (if d - 1 > m then d - 1 else m)
        · simp only [stack_loop, stack_step, amended_stack_step, List.foldl_cons, h1, h2, h3,
            if_false, add_zero]
          have hm : (if ((d : Int)) > (m : Int) then ((d : Int)) else (m : Int))
              = (((if d > m then d else m) : Nat) : Int) := by
            split_ifs <;> omega
          have hc : (if ((d : Int) < 0) then (0 : Int) else ((d : Int)))
              = ((d : Nat) : Int) := by
            split_ifs <;> omega
          rw [hm, hc]
          exact ih d (if d > m then d else m)

/-- Counter and index bounds of the per-function constant-pool loop: the
final count grows by three per function, and every returned method index
lies between the starting count and the final count. -/
theorem add_method_constants_bounds :
    ∀ (fns : List FnDecl) (st st' : PoolState) (trips : List (Nat × Nat × Nat)),
      add_method_constants st fns = some (st', trips) →
        st'.constant_pool_count = st.constant_pool_count + 3 * fns.length
        ∧ ∀ t ∈ trips,
            st.constant_pool_count ≤ t.1 ∧ t.1 < st'.constant_pool_count
            ∧ st.constant_pool_count ≤ t.2.1 ∧ t.2.1 < st'.constant_pool_count
            ∧ st.constant_pool_count ≤ t.2.2 ∧ t.2.2 < st'.constant_pool_count := by
  intro fns
  induction fns with
  | nil =>
    intro st st' trips h
    simp only [add_method_constants, Option.some.injEq, Prod.mk.injEq] at h
    obtain ⟨h1, h2⟩ := h
    subst h1; subst h2
    simp
  | cons fn rest ih =>
    intro st st' trips h
    simp only [add_method_constants, add_utf8_constant, add_name_and_type_constant,
      Option.bind_eq_bind, Option.bind_eq_some] at h
    obtain ⟨d, hd, ⟨st4, tl⟩, hrec, h⟩ := h
    simp only [Option.some.injEq, Prod.mk.injEq] at h
    obtain ⟨h1, h2⟩ := h
    subst h1; subst h2
    obtain ⟨ihc, ihb⟩ := ih _ _ _ hrec
    dsimp only at ihc ihb
    constructor
    · simp only [List.length_cons]
      omega
    · intro t ht
      rcases List.mem_cons.mp ht with h | h
      · subst h
        simp only [List.length_cons] at *
        omega
      · have := ihb t h
        omega

/-- Appending: `String.join` distributes over `cons`. -/
theorem string_join_cons (s : String) (l : List String) :
    String.join (s :: l) = s ++ String.join l := by
  apply String.ext
  simp [String.data_join, String.data_append]

/-- When every parameter type maps to a descriptor, the
argument-descriptor loop concatenates those descriptors in order. -/
theorem arg_descriptors_of_map (l : List Ty) :
    ∀ (ds : List String), l.map rust_ty_to_jvm_descriptor = ds.map some →
      arg_descriptors l = some (String.join ds) := by
  induction l with
  | nil =>
    intro ds h
    cases ds with
    | nil => rfl
    | cons d ds' => simp at h
  | cons t rest ih =>
    intro ds h
    cases ds with
    | nil => simp at h
    | cons d ds' =>
      simp only [List.map_cons, List.cons.injEq] at h
      obtain ⟨h1, h2⟩ := h
      simp [arg_descriptors, h1, ih ds' h2, string_join_cons]

/-- Lemma: `add_utf8_constant` preserves the pool invariant (given that the text
fits a `u16` length field). -/
theorem poolWF_add_utf8 (st : PoolState) (text : String)
    (hwf : PoolWF st) (hlen : (utf8Bytes text).length < 2 ^ 16) :
    PoolWF (add_utf8_constant st text).2 := by
  obtain ⟨entries, hpool, hent, hcount⟩ := hwf
  refine ⟨entries ++ [utf8_entry_bytes text], ?_, ?_, ?_⟩
  · simp [add_utf8_constant, hpool, List.flatten_append]
  · intro e he
    rcases List.mem_append.mp he with h | h
    · exact hent e h
    · rw [List.mem_singleton] at h
      subst h
      exact Or.inl ⟨utf8Bytes text, rfl, hlen⟩
  · simp [add_utf8_constant, hcount]

/-- Lemma: `add_class_constant` preserves the pool invariant. -/
theorem poolWF_add_class (st : PoolState) (name_index : Nat)
    (hwf : PoolWF st) : PoolWF (add_class_constant st name_index).2 := by
  obtain ⟨entries, hpool, hent, hcount⟩ := hwf
  refine ⟨entries ++ [class_entry_bytes name_index], ?_, ?_, ?_⟩
  · simp [add_class_constant, hpool, List.flatten_append]
  · intro e he
    rcases List.mem_append.mp he with h | h
    · exact hent e h
    · rw [List.mem_singleton] at h
      subst h
      exact Or.inr (Or.inl ⟨name_index, rfl⟩)
  · simp [add_class_constant, hcount]

/-- Lemma: `add_name_and_type_constant` preserves the pool invariant. -/
theorem poolWF_add_name_and_type (st : PoolState) (name_index descriptor_index : Nat)
    (hwf : PoolWF st) :
    PoolWF (add_name_and_type_constant st name_index descriptor_index).2 := by
  obtain ⟨entries, hpool, hent, hcount⟩ := hwf
  refine ⟨entries ++ [name_and_type_entry_bytes name_index descriptor_index], ?_, ?_, ?_⟩
  · simp [add_name_and_type_constant, hpool, List.flatten_append]
  · intro e he
    rcases List.mem_append.mp he with h | h
    · exact hent e h
    · rw [List.mem_singleton] at h
      subst h
      exact Or.inr (Or.inr ⟨name_index, descriptor_index, rfl⟩)
  · simp [add_name_and_type_constant, hcount]

/-- The per-function pool loop preserves the pool invariant. -/
theorem poolWF_add_method_constants :
    ∀ (fns : List FnDecl) (st st' : PoolState) (trips : List (Nat × Nat × Nat)),
      add_method_constants st fns = some (st', trips) →
      PoolWF st →
      (∀ fn ∈ fns, (utf8Bytes fn.name).length < 2 ^ 16) →
      (∀ fn ∈ fns, ∀ d, method_descriptor fn = some d → (utf8Bytes d).length < 2 ^ 16) →
      PoolWF st' := by
  intro fns
  induction fns with
  | nil =>
    intro st st' trips h hwf _ _
    simp only [add_method_constants, Option.some.injEq, Prod.mk.injEq] at h
    obtain ⟨h1, _⟩ := h
    subst h1
    exact hwf
  | cons fn rest ih =>
    intro st st' trips h hwf hname hdesc
    simp only [add_method_constants, add_utf8_constant, add_name_and_type_constant,
      Option.bind_eq_bind, Option.bind_eq_some] at h
    obtain ⟨d, hd, ⟨st4, tl⟩, hrec, h⟩ := h
    simp only [Option.some.injEq, Prod.mk.injEq] at h
    obtain ⟨h1, _⟩ := h
    subst h1
    have hwf3 :
        PoolWF (add_name_and_type_constant
          (add_utf8_constant (add_utf8_constant st fn.name).2 d).2
          st.constant_pool_count (st.constant_pool_count + 1)).2 :=
      poolWF_add_name_and_type _ _ _
        (poolWF_add_utf8 _ _
          (poolWF_add_utf8 _ _ hwf (hname fn (List.mem_cons_self fn rest)))
          (hdesc fn (List.mem_cons_self fn rest) d hd))
    exact ih _ _ _ hrec hwf3
      (fun g hg => hname g (List.mem_cons_of_mem fn hg))
      (fun g hg => hdesc g (List.mem_cons_of_mem fn hg))

/-- The full pool-construction phase establishes the pool invariant. -/
theorem poolWF_build_constant_pool (crate_name : String) (fns : List FnDecl)
    (st : PoolState) (idxs : PoolIndices)
    (h : build_constant_pool crate_name fns = some (st, idxs))
    (hcrate : (utf8Bytes crate_name).length < 2 ^ 16)
    (hname : ∀ fn ∈ fns, (utf8Bytes fn.name).length < 2 ^ 16)
    (hdesc : ∀ fn ∈ fns, ∀ d, method_descriptor fn = some d →
      (utf8Bytes d).length < 2 ^ 16) :
    PoolWF st := by
  simp only [build_constant_pool, add_utf8_constant, add_class_constant,
    Option.bind_eq_bind, Option.bind_eq_some] at h
  obtain ⟨⟨st4, trips⟩, hm, h⟩ := h
  simp only [Option.some.injEq, Prod.mk.injEq] at h
  obtain ⟨hst, _⟩ := h
  have hwf0 : PoolWF ⟨[], 1⟩ := ⟨[], rfl, by simp, rfl⟩
  have hwf4 :
      PoolWF (add_class_constant
        (add_utf8_constant (add_class_constant (add_utf8_constant ⟨[], 1⟩ crate_name).2
          1).2 "java/lang/Object").2 3).2 :=
    poolWF_add_class _ _
      (poolWF_add_utf8 _ _ (poolWF_add_class _ _ (poolWF_add_utf8 _ _ hwf0 hcrate))
        (by decide))
  have hwfm := poolWF_add_method_constants fns _ _ _ hm hwf4 hname hdesc
  have hfinal : PoolWF (add_utf8_constant st4 "Code").2 :=
    poolWF_add_utf8 _ _ hwfm (by decide)
  rw [← hst]
  exact hfinal

/-! ## Claim theorems -/

/-- C7: identical descriptors for the signed and unsigned integer of each
width. -/
theorem c7_int_width_descriptors :
    (rust_ty_to_jvm_descriptor (.int .i8) = some "B"
      ∧ rust_ty_to_jvm_descriptor (.uint .u8) = some "B")
    ∧ (rust_ty_to_jvm_descriptor (.int .i16) = some "S"
      ∧ rust_ty_to_jvm_descriptor (.uint .u16) = some "S")
    ∧ (rust_ty_to_jvm_descriptor (.int .i32) = some "I"
      ∧ rust_ty_to_jvm_descriptor (.uint .u32) = some "I")
    ∧ (rust_ty_to_jvm_descriptor (.int .i64) = some "J"
      ∧ rust_ty_to_jvm_descriptor (.uint .u64) = some "J")
    ∧ (rust_ty_to_jvm_descriptor (.int .isize) = some "I"
      ∧ rust_ty_to_jvm_descriptor (.uint .usize) = some "I")
    ∧ (rust_ty_to_jvm_descriptor (.int .i128) = some "Ljava/math/BigInteger;"
      ∧ rust_ty_to_jvm_descriptor (.uint .u128) = some "Ljava/math/BigInteger;") := by
  decide

/-- C8: the type mapper panics exactly on a raw pointer to a non-string
pointee; every other type (references, tuples, unrecognized types, ...)
yields a descriptor, with `Ljava/lang/Object;` as the fallback for
unrecognized types. -/
theorem c8_panic_iff_raw_ptr_non_str :
    (∀ t : Ty, rust_ty_to_jvm_descriptor t = none
        ↔ ∃ p, t = Ty.rawPtr p ∧ p ≠ Ty.str)
    ∧ (∀ k : Nat, rust_ty_to_jvm_descriptor (.other k) = some "Ljava/lang/Object;") := by
  constructor
  · intro t
    constructor
    · intro h
      match t with
      | .rawPtr p =>
        refine ⟨p, rfl, ?_⟩
        intro hp
        subst hp
        simp [rust_ty_to_jvm_descriptor] at h
      | .bool | .char | .str | .never => simp [rust_ty_to_jvm_descriptor] at h
      | .int it => cases it <;> simp [rust_ty_to_jvm_descriptor] at h
      | .uint ut => cases ut <;> simp [rust_ty_to_jvm_descriptor] at h
      | .float ft => cases ft <;> simp [rust_ty_to_jvm_descriptor] at h
      | .ref inner => cases inner <;> simp [rust_ty_to_jvm_descriptor] at h
      | .tuple fields => cases fields <;> simp [rust_ty_to_jvm_descriptor] at h
      | .other k => simp [rust_ty_to_jvm_descriptor] at h
    · rintro ⟨p, rfl, hp⟩
      cases p <;> simp_all [rust_ty_to_jvm_descriptor]
  · intro k
    rfl

/-- C1, counterexample: for a function returning `i128` the Type Mapper
yields the reference descriptor `Ljava/math/BigInteger;`, but the visitor
emits `0xb1` (`return`), not the `0xb0` (`areturn`) that the claim
prescribes for every `L<name>;` descriptor. -/
theorem c1_counterexample :
    rust_ty_to_jvm_descriptor (Ty.int .i128) = some "Ljava/math/BigInteger;"
    ∧ visit_terminator_bytes (Ty.int .i128) .ret = some [0xb1]
    ∧ visit_terminator_bytes (Ty.int .i128) .ret
        ≠ some [claimed_return_opcode "Ljava/math/BigInteger;"] := by
  refine ⟨rfl, rfl, ?_⟩
  decide

/-- C1, amended: every `Return` terminator appends exactly one return
opcode, chosen from the declared return descriptor: `0xb1` for `V`,
`0xac` for `I`/`F`/`Z`/`B`/`C`/`S`, `0xb0` exactly for the two reference
descriptors `Ljava/lang/String;` and `Ljava/lang/Object;`, and `0xb1` in
every other case (including other `L<name>;` descriptors such as
`Ljava/math/BigInteger;`). -/
theorem c1_return_opcode_selection (return_ty : Ty) (d : String)
    (h : rust_ty_to_jvm_descriptor return_ty = some d) :
    visit_terminator_bytes return_ty .ret = some [amended_return_opcode d] := by
  simp only [visit_terminator_bytes, h, amended_return_opcode]
  split_ifs <;> rfl

/-- C1, witness: the amended selection at the concrete return type `i32`. -/
theorem c1_return_opcode_selection_witness :
    rust_ty_to_jvm_descriptor (Ty.int .i32) = some "I"
    ∧ visit_terminator_bytes (Ty.int .i32) .ret = some [amended_return_opcode "I"] :=
  ⟨rfl, c1_return_opcode_selection (Ty.int .i32) "I" rfl⟩

/-- C2: a function whose body is one basic block with a single statement
assigning the sum of its first two `i32` parameters (so its return type is
`i32`) followed by `Return` translates to exactly
`[iload_0, iload_1, iadd, ireturn]`; `calculate_max_stack_size` of that
sequence is 2, and the emitted `max_locals` is the parameter count plus
one. -/
theorem c2_two_arg_add_function (a b : Operand) (op : BinOp)
    (hop : op = BinOp.add ∨ op = BinOp.addWithOverflow) :
    visit_body_bytes (Ty.int .i32)
        [⟨[StatementKind.assign (Rvalue.binaryOp op a b)], TerminatorKind.ret⟩]
      = some [0x1a, 0x1b, 0x60, 0xac]
    ∧ calculate_max_stack_size [0x1a, 0x1b, 0x60, 0xac] = 2
    ∧ method_max_locals ([Ty.int .i32, Ty.int .i32].length)
        = [Ty.int .i32, Ty.int .i32].length + 1 := by
  rcases hop with h | h <;> subst h <;> exact ⟨rfl, by decide, by decide⟩

/-- C2, witness: the translation at the concrete `Add` operation. -/
theorem c2_two_arg_add_function_witness :
    visit_body_bytes (Ty.int .i32)
        [⟨[StatementKind.assign (Rvalue.binaryOp BinOp.add 0 1)], TerminatorKind.ret⟩]
      = some [0x1a, 0x1b, 0x60, 0xac]
    ∧ calculate_max_stack_size [0x1a, 0x1b, 0x60, 0xac] = 2
    ∧ method_max_locals ([Ty.int .i32, Ty.int .i32].length)
        = [Ty.int .i32, Ty.int .i32].length + 1 :=
  c2_two_arg_add_function 0 1 BinOp.add (Or.inl rfl)

/-- C3, counterexample: on `[iconst_0, return, iconst_0]` the code's
analysis reports 2 (the void `return` 0xb1 is stack-neutral there), while
the claimed simulation — in which every return pops 1 — reports 1. -/
theorem c3_counterexample :
    calculate_max_stack_size [0x03, 0xb1, 0x03]
      ≠ claimed_max_stack [0x03, 0xb1, 0x03] := by
  decide

/-- C3, amended: `calculate_max_stack_size` is the running maximum of the
in-order clamped stack-depth simulation in which loads/constants push 1,
integer add/sub have net effect −1, and only `ireturn` (0xac) and
`areturn` (0xb0) pop 1 — the void `return` (0xb1) is stack-neutral —
truncated to 16 bits by the final `as u16` cast. -/
theorem c3_max_stack_simulation (instructions : List Nat) :
    calculate_max_stack_size instructions = amended_max_stack instructions % 2 ^ 16 := by
  unfold calculate_max_stack_size amended_max_stack
  have h := stack_loop_eq_amended instructions 0 0
  simp only [Nat.cast_zero] at h
  rw [h, max_eq_left (Int.natCast_nonneg _)]
  simp

/-- C6, counterexample: on the concrete crate name `x` with no functions,
bytes 4-7 of the emitted class file are `00 00 00 34` — the minor version
`0x0000` comes before the major version `0x0034` — not the
major-then-minor order the claim states. -/
theorem c6_counterexample :
    (generate_class_with_static_methods_bytecode "x" []).map (fun l => l.take 8)
      = some [0xCA, 0xFE, 0xBA, 0xBE, 0x00, 0x00, 0x00, 0x34]
    ∧ (generate_class_with_static_methods_bytecode "x" []).map (fun l => l.take 8)
      ≠ some ([0xCA, 0xFE, 0xBA, 0xBE] ++ [0x00, 0x34] ++ [0x00, 0x00]) :=
  ⟨by decide, by decide⟩

/-- C6, amended: every emitted class file begins with the magic bytes
`CA FE BA BE` followed by the minor version bytes `00 00` and then the
major version bytes `00 34` (52), per the JVM class-file field order. -/
theorem c6_header_bytes (crate_name : String) (fns : List FnDecl) (out : List Nat)
    (h : generate_class_with_static_methods_bytecode crate_name fns = some out) :
    out.take 8 = [0xCA, 0xFE, 0xBA, 0xBE] ++ ([0x00, 0x00] ++ [0x00, 0x34]) := by
  unfold generate_class_with_static_methods_bytecode at h
  cases hb : build_constant_pool crate_name fns with
  | none => rw [hb] at h; simp at h
  | some p =>
    rw [hb] at h
    obtain ⟨st, idxs⟩ := p
    simp only [Option.pure_def, Option.bind_eq_bind, Option.some_bind, Option.some.injEq] at h
    subst h
    rfl

/-- C6, witness: the amended header fact at the concrete crate `x`. -/
theorem c6_header_bytes_witness :
    ((generate_class_with_static_methods_bytecode "x" []).getD []).take 8
      = [0xCA, 0xFE, 0xBA, 0xBE] ++ ([0x00, 0x00] ++ [0x00, 0x34]) :=
  c6_header_bytes "x" [] _ rfl

/-- C4: each `add_*_constant` helper returns the current pool counter and
increments it by one (so, starting from counter 1, returned indices are
1-based and strictly increasing across any call sequence); two
`add_utf8_constant` calls with identical text append two distinct entries
and return distinct indices (no deduplication); and every pool index the
assembler writes elsewhere in the class file (this-class, super-class,
per-method name/descriptor/NameAndType, the `Code` attribute name) is at
least 1 and strictly below the final counter — i.e. was returned by an
insertion performed before the pool bytes are serialized. -/
theorem c4_pool_insertion_discipline :
    (∀ (st : PoolState) (text : String),
        (add_utf8_constant st text).1 = st.constant_pool_count
        ∧ ((add_utf8_constant st text).2).constant_pool_count
            = st.constant_pool_count + 1)
    ∧ (∀ (st : PoolState) (name_index : Nat),
        (add_class_constant st name_index).1 = st.constant_pool_count
        ∧ ((add_class_constant st name_index).2).constant_pool_count
            = st.constant_pool_count + 1)
    ∧ (∀ (st : PoolState) (name_index descriptor_index : Nat),
        (add_name_and_type_constant st name_index descriptor_index).1
            = st.constant_pool_count
        ∧ ((add_name_and_type_constant st name_index descriptor_index).2).constant_pool_count
            = st.constant_pool_count + 1)
    ∧ (∀ (st : PoolState) (text : String),
        (add_utf8_constant (add_utf8_constant st text).2 text).1
            ≠ (add_utf8_constant st text).1
        ∧ ((add_utf8_constant (add_utf8_constant st text).2 text).2).constant_pool
            = st.constant_pool ++ utf8_entry_bytes text ++ utf8_entry_bytes text)
    ∧ (∀ (crate_name : String) (fns : List FnDecl) (st : PoolState)
        (idxs : PoolIndices),
        build_constant_pool crate_name fns = some (st, idxs) →
          (1 ≤ idxs.basic_class_index
            ∧ idxs.basic_class_index < st.constant_pool_count)
          ∧ (1 ≤ idxs.object_class_index
            ∧ idxs.object_class_index < st.constant_pool_count)
          ∧ (1 ≤ idxs.code_attribute_name_index
            ∧ idxs.code_attribute_name_index < st.constant_pool_count)
          ∧ ∀ t ∈ idxs.method_indices,
              (1 ≤ t.1 ∧ t.1 < st.constant_pool_count)
              ∧ (1 ≤ t.2.1 ∧ t.2.1 < st.constant_pool_count)
              ∧ (1 ≤ t.2.2 ∧ t.2.2 < st.constant_pool_count)) := by
  refine ⟨fun st text => ⟨rfl, rfl⟩, fun st ni => ⟨rfl, rfl⟩,
    fun st ni di => ⟨rfl, rfl⟩,
    fun st text => ⟨by simp [add_utf8_constant], rfl⟩, ?_⟩
  intro crate_name fns st idxs h
  simp only [build_constant_pool, add_utf8_constant, add_class_constant,
    Option.bind_eq_bind, Option.bind_eq_some] at h
  obtain ⟨⟨st4, trips⟩, hm, h⟩ := h
  simp only [Option.some.injEq, Prod.mk.injEq] at h
  obtain ⟨hst, hidx⟩ := h
  obtain ⟨hc, hb⟩ := add_method_constants_bounds fns _ _ _ hm
  dsimp only at hc
  subst hst
  subst hidx
  refine ⟨⟨by simp, by dsimp only; omega⟩, ⟨by simp, by dsimp only; omega⟩,
    ⟨by dsimp only; omega, by dsimp only; omega⟩, ?_⟩
  intro t ht
  have := hb t ht
  dsimp only at this ⊢
  omega

/-- C4, witness: the bounds for the this-class index at the concrete crate
`x` with no functions. -/
theorem c4_pool_insertion_discipline_witness :
    1 ≤ ((build_constant_pool "x" []).getD
          (⟨[], 0⟩, ⟨0, 0, [], 0⟩)).2.basic_class_index
    ∧ ((build_constant_pool "x" []).getD
          (⟨[], 0⟩, ⟨0, 0, [], 0⟩)).2.basic_class_index
        < ((build_constant_pool "x" []).getD
          (⟨[], 0⟩, ⟨0, 0, [], 0⟩)).1.constant_pool_count :=
  (c4_pool_insertion_discipline.2.2.2.2 "x" [] _ _ rfl).1

/-- C5: a function named exactly `main` with zero parameters always gets
the fixed descriptor `([Ljava/lang/String;)V`, for every declared return
type; every other function gets `(`, the Type-Mapper descriptors of its
parameter types in order, `)`, and the Type-Mapper descriptor of its
return type. -/
theorem c5_method_descriptor_shape :
    (∀ (output : Ty) (instrs : List Nat),
        method_descriptor ⟨"main", [], output, instrs⟩
          = some "([Ljava/lang/String;)V")
    ∧ (∀ (fn : FnDecl), ¬(fn.name = "main" ∧ fn.inputs.isEmpty = true) →
        ∀ (ds : List String) (ret : String),
          fn.inputs.map rust_ty_to_jvm_descriptor = ds.map some →
          rust_ty_to_jvm_descriptor fn.output = some ret →
          method_descriptor fn = some ("(" ++ String.join ds ++ ")" ++ ret)) := by
  constructor
  · intro output instrs
    rfl
  · intro fn hnot ds ret hds hret
    have hargs : arg_descriptors fn.inputs = some (String.join ds) :=
      arg_descriptors_of_map fn.inputs ds hds
    simp [method_descriptor, if_neg hnot, hargs, hret]

/-- C5, witness: the `main` special case at return type `()` and the
regular shape at the two-`i32`-parameter function `add`. -/
theorem c5_method_descriptor_shape_witness :
    method_descriptor ⟨"main", [], Ty.tuple [], []⟩ = some "([Ljava/lang/String;)V"
    ∧ method_descriptor ⟨"add", [Ty.int .i32, Ty.int .i32], Ty.int .i32, []⟩
        = some ("(" ++ String.join ["I", "I"] ++ ")" ++ "I") :=
  ⟨c5_method_descriptor_shape.1 (Ty.tuple []) [],
    c5_method_descriptor_shape.2 ⟨"add", [Ty.int .i32, Ty.int .i32], Ty.int .i32, []⟩
      (by decide) ["I", "I"] "I" rfl rfl⟩

/-- C9: the 16-bit constant-pool count field written after the version
bytes encodes one more than the number of pool entries actually emitted:
the output decomposes as header, `u16be (entries + 1)`, the serialized
entries, and the remainder of the class file. -/
theorem c9_constant_pool_count_field
    (crate_name : String) (fns : List FnDecl) (out : List Nat)
    (hcrate : (utf8Bytes crate_name).length < 2 ^ 16)
    (hname : ∀ fn ∈ fns, (utf8Bytes fn.name).length < 2 ^ 16)
    (hdesc : ∀ fn ∈ fns, ∀ d, method_descriptor fn = some d →
      (utf8Bytes d).length < 2 ^ 16)
    (h : generate_class_with_static_methods_bytecode crate_name fns = some out) :
    ∃ (entries : List (List Nat)) (rest : List Nat),
      (∀ e ∈ entries, is_pool_entry e)
      ∧ out = [0xCA, 0xFE, 0xBA, 0xBE, 0x00, 0x00, 0x00, 0x34]
          ++ u16be (entries.length + 1) ++ (entries.flatten ++ rest) := by
  unfold generate_class_with_static_methods_bytecode at h
  cases hb : build_constant_pool crate_name fns with
  | none => rw [hb] at h; simp at h
  | some p =>
    obtain ⟨st, idxs⟩ := p
    rw [hb] at h
    simp only [Option.pure_def, Option.bind_eq_bind, Option.some_bind,
      Option.some.injEq] at h
    obtain ⟨entries, hpool, hent, hcount⟩ :=
      poolWF_build_constant_pool crate_name fns st idxs hb hcrate hname hdesc
    refine ⟨entries,
      [0x00, 0x21] ++ u16be idxs.basic_class_index
        ++ u16be idxs.object_class_index ++ [0x00, 0x00] ++ [0x00, 0x00]
        ++ u16be fns.length
        ++ ((fns.zip idxs.method_indices).map (fun p =>
            method_record_bytes idxs.code_attribute_name_index p.2.1 p.2.2.1 p.1)).flatten
        ++ [0x00, 0x00], hent, ?_⟩
    subst h
    rw [← hcount, ← hpool]
    simp [List.append_assoc]

/-- C9, witness: the decomposition at the concrete crate `x` with no
functions. -/
theorem c9_constant_pool_count_field_witness :
    ∃ (entries : List (List Nat)) (rest : List Nat),
      (∀ e ∈ entries, is_pool_entry e)
      ∧ (generate_class_with_static_methods_bytecode "x" []).getD []
          = [0xCA, 0xFE, 0xBA, 0xBE, 0x00, 0x00, 0x00, 0x34]
            ++ u16be (entries.length + 1) ++ (entries.flatten ++ rest) :=
  c9_constant_pool_count_field "x" [] _ (by decide) (by simp) (by simp) rfl

/-- C10: a function whose translated instruction list is empty still gets
a complete method record — access flags `00 09` (public static), name and
descriptor indices, one attribute, the `Code` attribute name index, an
attribute length of exactly 12, and a Code attribute body of max_stack 0,
max_locals = parameter count + 1, code_length 0, empty code, empty
exception table and zero nested attributes. -/
theorem c10_empty_method_record (code_attribute_name_index
    method_name_index method_descriptor_index : Nat) (fn : FnDecl)
    (hinstrs : fn.instrs = [])
    (hp : fn.inputs.length + 1 < 2 ^ 16) :
    method_record_bytes code_attribute_name_index method_name_index
        method_descriptor_index fn =
      [0x00, 0x09] ++ u16be method_name_index ++ u16be method_descriptor_index
        ++ [0x00, 0x01] ++ u16be code_attribute_name_index
        ++ [0x00, 0x00, 0x00, 0x0c]
        ++ ([0x00, 0x00] ++ u16be (fn.inputs.length + 1) ++ [0x00, 0x00, 0x00, 0x00]
            ++ ([] : List Nat) ++ [0x00, 0x00] ++ [0x00, 0x00]) := by
  obtain ⟨name, inputs, output, instrs⟩ := fn
  dsimp only at hinstrs hp ⊢
  subst hinstrs
  have hml : method_max_locals inputs.length = inputs.length + 1 := by
    unfold method_max_locals
    omega
  have hca : code_attribute_bytes ⟨name, inputs, output, []⟩
      = [0x00, 0x00] ++ u16be (inputs.length + 1) ++ [0x00, 0x00, 0x00, 0x00]
        ++ ([] : List Nat) ++ [0x00, 0x00] ++ [0x00, 0x00] := by
    simp only [code_attribute_bytes, patch_bytes, u16be, u32be, hml]
    rfl
  simp only [method_record_bytes, hca, patch_bytes, u16be, u32be]
  norm_num [List.length_append, List.cons_append, List.nil_append]

/-- C10, witness: the record for a concrete parameterless function with no
instructions. -/
theorem c10_empty_method_record_witness :
    method_record_bytes 5 3 4 ⟨"f", [], Ty.never, []⟩ =
      [0x00, 0x09] ++ u16be 3 ++ u16be 4 ++ [0x00, 0x01] ++ u16be 5
        ++ [0x00, 0x00, 0x00, 0x0c]
        ++ ([0x00, 0x00] ++ u16be (([] : List Ty).length + 1) ++ [0x00, 0x00, 0x00, 0x00]
            ++ ([] : List Nat) ++ [0x00, 0x00] ++ [0x00, 0x00]) :=
  c10_empty_method_record 5 3 4 ⟨"f", [], Ty.never, []⟩ rfl (by decide)
